import Mathlib

/-!
Verification of the MP3 crawler/downloader (`thec.py`).

The program is shallowly embedded: strings are lists of characters
(`Str := List Char`), the HTTP fetch and HTML parse capabilities (which the
specification declares to be external collaborators) are an oracle
`Env.fetch : Str → Option HttpResponse` where `none` models a raised
network/parse exception and a response carries both its raw body and the
parsed document view of that body, and the flat output directory is an
association list from filename to file content.  Pure library helpers
(`urllib.parse.unquote`, `urlparse`, `urljoin`, `os.path.basename`,
`os.path.splitext`) are modelled directly; simplifications of those
library models are noted at each definition.  All definitions are
executable by kernel reduction (structural or fuelled recursion only).
-/

namespace Thec

/-- Strings are modelled as lists of characters.  Where the Python code
operates on `bytes` (response bodies) we use the same representation, one
character per byte. -/
abbrev Str := List Char

/-- The whitespace characters of Python's `str.strip()` / regex `\s`
(ASCII part; the rare non-ASCII Unicode whitespace is outside the model). -/
def isPySpace (c : Char) : Bool :=
  c == ' ' || c == '\t' || c == '\n' || c == '\r' || c == '\x0b' || c == '\x0c'

/-- `str.lower()` (ASCII case mapping, which is all the program's data uses). -/
def pyLower (s : Str) : Str := s.map Char.toLower

/-- Value of a hexadecimal digit, as accepted by `urllib.parse.unquote`. -/
def hexVal (c : Char) : Option Nat :=
  if c.isDigit then some (c.toNat - 48)
  else if 'a' ≤ c && c ≤ 'f' then some (c.toNat - 87)
  else if 'A' ≤ c && c ≤ 'F' then some (c.toNat - 55)
  else none

/-- Worker for `pyUnquote`; the fuel is an upper bound on the number of
characters still to scan (each step consumes at least one), so the
fuel-exhausted case is never reached from `pyUnquote`. -/
def pyUnquoteAux : Nat → Str → Str
  | 0, s => s
  | fuel + 1, s =>
    match s with
    | [] => []
    | c :: rest =>
      if c = '%' then
        match rest with
        | a :: b :: rest2 =>
          match hexVal a, hexVal b with
          | some x, some y => Char.ofNat (16 * x + y) :: pyUnquoteAux fuel rest2
          | _, _ => '%' :: pyUnquoteAux fuel rest
        | _ => '%' :: pyUnquoteAux fuel rest
      else c :: pyUnquoteAux fuel rest

/-- `urllib.parse.unquote`: decode each valid `%XX` escape, leave invalid
escapes untouched and continue scanning right after the `%`.  (Python
additionally UTF-8-decodes consecutive escaped bytes; we decode bytewise,
which agrees on ASCII escapes — the properties proved below do not depend
on how multi-byte sequences decode.) -/
def pyUnquote (s : Str) : Str := pyUnquoteAux s.length s

/-- `os.path.basename`: everything after the last `/`. -/
def osBasename (s : Str) : Str :=
  (s.reverse.takeWhile (fun c => c != '/')).reverse

/-- `re.sub(r'^\d+[\s.-]*', '', s)`: if the string starts with a digit,
drop the leading run of digits and then any following whitespace, dots and
dashes (Python `\d`/`\s` restricted to ASCII as above). -/
def stripLeadingNum (s : Str) : Str :=
  match s with
  | [] => []
  | c :: _ =>
    if c.isDigit then
      (s.dropWhile Char.isDigit).dropWhile (fun d => isPySpace d || d == '.' || d == '-')
    else s

/-- The characters removed by `re.sub(r'[<>:"/\\|?*]', '', s)`. -/
def isForbidden (c : Char) : Bool :=
  c == '<' || c == '>' || c == ':' || c == '"' || c == '/' ||
  c == '\\' || c == '|' || c == '?' || c == '*'

/-- `re.sub(r'[<>:"/\\|?*]', '', s)`. -/
def removeForbidden (s : Str) : Str := s.filter (fun c => !isForbidden c)

/-- Worker for `collapseWs`; the flag records whether the previous
character was whitespace (in which case further whitespace is absorbed
into the single space already emitted). -/
def collapseWsAux : Bool → Str → Str
  | _, [] => []
  | prevWs, c :: rest =>
    if isPySpace c then
      if prevWs then collapseWsAux true rest
      else ' ' :: collapseWsAux true rest
    else c :: collapseWsAux false rest

/-- `re.sub(r'\s+', ' ', s)`: every maximal whitespace run becomes one space. -/
def collapseWs (s : Str) : Str := collapseWsAux false s

/-- `str.strip()`: drop whitespace from both ends. -/
def pyStrip (s : Str) : Str :=
  ((s.dropWhile isPySpace).reverse.dropWhile isPySpace).reverse

/-- The required extension `.mp3`. -/
def mp3Ext : Str := ['.', 'm', 'p', '3']

/-- The fixed fallback filename `audio.mp3`. -/
def fallbackName : Str := ['a', 'u', 'd', 'i', 'o', '.', 'm', 'p', '3']

/-- `s.lower().endswith('.mp3')`. -/
def lowerEndsWithMp3 (s : Str) : Bool :=
  decide ((pyLower s).drop (s.length - 4) = mp3Ext)

/-- Last steps of `sanitize_filename` (from the fallback test on): shared
between the function and the lemmas about its output. -/
def sanitizeTail (f5 : Str) : Str :=
  let f6 := if f5 = [] ∨ f5 = mp3Ext then fallbackName else f5
  if lowerEndsWithMp3 f6 then f6 else f6 ++ mp3Ext

/-- `sanitize_filename` from `thec.py`: percent-decode, strip to the final
path segment, strip a leading numeric prefix, remove filesystem-illegal
characters, collapse and trim whitespace, truncate to 200 characters,
substitute `audio.mp3` for an empty or bare-extension result, and append
`.mp3` unless the (case-insensitive) suffix check already passes. -/
def sanitize_filename (filename : Str) : Str :=
  let f1 := pyUnquote filename
  let f2 := osBasename f1
  let f3 := stripLeadingNum f2
  let f4 := removeForbidden f3
  let f5 := (pyStrip (collapseWs f4)).take 200
  sanitizeTail f5

example : sanitize_filename ("track.mp3".data) = "track.mp3".data := by decide
example : sanitize_filename ("03 - Foo%20Bar.MP3".data) = "Foo Bar.MP3".data := by decide
example : sanitize_filename ("/a/b/song.mp3".data) = "song.mp3".data := by decide
example : sanitize_filename ("".data) = "audio.mp3".data := by decide
example : sanitize_filename ("x".data) = "x.mp3".data := by decide
example : sanitize_filename ("12 34 song.mp3".data) = "34 song.mp3".data := by decide

/-! ## URL parsing and joining

The program's URLs are http(s) URLs and scheme-less relative references;
`urlparse`/`urljoin` are modelled for exactly those forms.  Features of the
stdlib functions that the program's data never exercises (non-authority
schemes such as `mailto:`, dot-segment normalisation, fragment-only and
query-only joins) are outside the model and noted below. -/

/-- Split a string around the first occurrence of `://`; `none` if absent. -/
def splitScheme : Str → Option (Str × Str)
  | [] => none
  | c :: rest =>
    if "://".data.isPrefixOf (c :: rest) then some ([], (c :: rest).drop 3)
    else
      match splitScheme rest with
      | some (pre, post) => some (c :: pre, post)
      | none => none

/-- A valid URL scheme: a letter followed by letters, digits, `+`, `-`, `.`
(the rule `urllib.parse` uses to decide whether a `:` separates a scheme). -/
def validScheme (pre : Str) : Bool :=
  match pre with
  | [] => false
  | c :: rest => c.isAlpha && rest.all (fun d => d.isAlphanum || d == '+' || d == '-' || d == '.')

/-- Result of `urllib.parse.urlparse`, restricted to the components the
program reads (`scheme`, `netloc`, `path`); `rest` is the unsplit remainder
(query/fragment), which the program never looks at. -/
structure UrlParts where
  scheme : Str
  netloc : Str
  path : Str
  rest : Str
deriving DecidableEq

/-- Parse a URL with no scheme part (relative reference, or `//host/...`). -/
def relParse (u : Str) : UrlParts :=
  if "//".data.isPrefixOf u then
    let post := u.drop 2
    let netloc := post.takeWhile (fun c => !(c == '/' || c == '?' || c == '#'))
    let after := post.drop netloc.length
    let path := after.takeWhile (fun c => !(c == '?' || c == '#'))
    { scheme := [], netloc := netloc, path := path, rest := after.drop path.length }
  else
    let path := u.takeWhile (fun c => !(c == '?' || c == '#'))
    { scheme := [], netloc := [], path := path, rest := u.drop path.length }

/-- `urllib.parse.urlparse`: split into scheme (lower-cased), netloc, path
and remainder. -/
def urlparse (u : Str) : UrlParts :=
  match splitScheme u with
  | some (pre, post) =>
    if validScheme pre then
      let netloc := post.takeWhile (fun c => !(c == '/' || c == '?' || c == '#'))
      let after := post.drop netloc.length
      let path := after.takeWhile (fun c => !(c == '?' || c == '#'))
      { scheme := pyLower pre, netloc := netloc, path := path, rest := after.drop path.length }
    else relParse u
  | none => relParse u

/-- Whether a URL carries its own scheme and authority (`scheme://...`). -/
def isAbsoluteUrl (u : Str) : Bool :=
  match splitScheme u with
  | some (pre, _) => validScheme pre
  | none => false

/-- The directory part of a path, up to and including the last `/`
(`/` when the path has none), used for relative joins. -/
def dirOf (p : Str) : Str :=
  let r := p.reverse.dropWhile (fun c => c != '/')
  if r = [] then ['/'] else r.reverse

/-- `urllib.parse.urljoin` restricted to the reference forms the program
produces: an absolute URL replaces the base; `//host/...` keeps the base
scheme; `/path` keeps scheme and authority; any other non-empty reference
is resolved against the directory of the base path. -/
def urljoin (base url : Str) : Str :=
  if url = [] then base
  else if isAbsoluteUrl url then url
  else
    let b := urlparse base
    let pre := b.scheme ++ "://".data ++ b.netloc
    if "//".data.isPrefixOf url then b.scheme ++ ':' :: url
    else if url.head? = some '/' then pre ++ url
    else pre ++ dirOf b.path ++ url

example : (urlparse ("https://host.example/a/b.mp3?q=1".data)).scheme = "https".data := by decide
example : (urlparse ("https://host.example/a/b.mp3?q=1".data)).netloc = "host.example".data := by decide
example : (urlparse ("https://host.example/a/b.mp3?q=1".data)).path = "/a/b.mp3".data := by decide
example : (urlparse ("p1".data)).netloc = [] := by decide
example : urljoin ("https://h/a/b".data) ("x.mp3".data) = "https://h/a/x.mp3".data := by decide
example : urljoin ("https://h".data) ("/x.mp3".data) = "https://h/x.mp3".data := by decide
example : urljoin ("https://h/a".data) ("http://h/x".data) = "http://h/x".data := by decide
example : urljoin ("https://h/a".data) ("//cdn.example/t.mp3".data) = "https://cdn.example/t.mp3".data := by decide

/-! ## External-collaborator model: HTTP fetch, HTML parse, filesystem

Per the specification, HTTP transport and HTML DOM parsing are external
capabilities.  A fetched response carries the data the program reads from
them: status code, `content-type` header, raw body (bytes as characters),
and the parsed document view of the body — the audio elements (`src`
attribute and nested `source` elements' `src` attributes, in document
order) and the `href` values of hyperlinks (only those having `href`, as
`find_all('a', href=True)` returns), in document order.  A fetch that
raises (network error, timeout, unparsable input) is `none`.  Request
headers (user agent, accept, referer) only feed this external capability,
so the oracle is keyed by URL alone. -/

/-- An `<audio>` element: its `src` attribute and the `src` attributes of
its nested `<source>` elements, in document order. -/
structure AudioTag where
  src : Option Str
  sources : List (Option Str)
deriving DecidableEq

/-- The parsed document view of a fetched body. -/
structure PageDoc where
  audios : List AudioTag
  anchors : List Str
deriving DecidableEq

/-- A fetched HTTP response (after redirects). -/
structure HttpResponse where
  status : Nat
  contentType : Str
  body : Str
  doc : PageDoc
deriving DecidableEq

/-- The fetch capability: `none` models a raised exception. -/
structure Env where
  fetch : Str → Option HttpResponse

/-- `requests.Response.raise_for_status` raises exactly for status codes
400–599 (`4xx` client errors and `5xx` server errors); any other status
passes. -/
def okStatus (r : HttpResponse) : Bool :=
  decide (r.status < 400 ∨ 600 ≤ r.status)

/-- Python's `in` on strings: `pat` occurs contiguously in `s`. -/
def strContains : Str → Str → Bool
  | pat, [] => decide (pat = [])
  | pat, c :: rest => pat.isPrefixOf (c :: rest) || strContains pat rest

/-- The downloader's HTML test: declared content type contains
`text/html`, or the first 15 body bytes (lower-cased) start with
`<!doctype`, or `<html` occurs in the first 100 body bytes (lower-cased). -/
def htmlSniff (r : HttpResponse) : Bool :=
  strContains ("text/html".data) (pyLower r.contentType)
  || "<!doctype".data.isPrefixOf (pyLower (r.body.take 15))
  || strContains ("<html".data) (pyLower (r.body.take 100))

/-- The flat output directory: an association list from filename to file
content (most recent first). -/
abbrev FileSys := List (Str × Str)

/-- The filenames present in the directory. -/
def fsNames (fs : FileSys) : List Str := fs.map Prod.fst

/-- `os.path.exists` within the output directory. -/
def fsExists (fs : FileSys) (name : Str) : Bool := decide (name ∈ fsNames fs)

/-- `os.remove`. -/
def fsRemove (fs : FileSys) (name : Str) : FileSys :=
  fs.filter (fun e => !(e.1 == name))

/-- `open(path, 'wb')` followed by writing `content`: replaces any file of
that name. -/
def fsWrite (fs : FileSys) (name content : Str) : FileSys :=
  (name, content) :: fsRemove fs name

/-! ## Filename collision handling -/

/-- Decimal digit character. -/
def digitChar (d : Nat) : Char := Char.ofNat (48 + d)

/-- Fuelled decimal rendering (fuel bounds the value, so it never runs
out when called from `natToStr`). -/
def toDecimalAux : Nat → Nat → Str
  | 0, _ => []
  | fuel + 1, n => if n < 10 then [digitChar n] else toDecimalAux fuel (n / 10) ++ [digitChar (n % 10)]

/-- Decimal rendering of a natural number, as Python's `str(counter)`. -/
def natToStr (n : Nat) : Str := toDecimalAux (n + 1) n

/-- `os.path.splitext`: split at the last dot, unless every character
before that dot is itself a dot (so `.mp3` has no extension). -/
def splitext (s : Str) : Str × Str :=
  let afterRev := s.reverse.takeWhile (fun c => c != '.')
  if afterRev.length = s.length then (s, [])
  else
    let cut := s.length - afterRev.length - 1
    let base := s.take cut
    let ext := s.drop cut
    if base.all (fun c => c == '.') then (s, [])
    else (base, ext)

/-- The candidate name `f"{base}_{counter}{ext}"`. -/
def mkName (base ext : Str) (counter : Nat) : Str :=
  base ++ '_' :: (natToStr counter ++ ext)

/-- The `while os.path.exists(filepath)` loop: try `base_1`, `base_2`, …
until a free name is found.  The fuel (one more than the number of files)
is enough by pigeonhole, proved below; the fuel-exhausted value is the
name the loop would test next. -/
def collideFrom (fs : FileSys) (base ext : Str) : Nat → Nat → Str
  | counter, 0 => mkName base ext counter
  | counter, fuel + 1 =>
    let name := mkName base ext counter
    if fsExists fs name then collideFrom fs base ext (counter + 1) fuel else name

/-- Duplicate handling of `download_mp3`: keep the sanitized name if it is
free, otherwise insert an incrementing numeric suffix before the
extension. -/
def resolveName (fs : FileSys) (filename : Str) : Str :=
  if fsExists fs filename then
    let p := splitext filename
    collideFrom fs p.1 p.2 1 (fs.length + 1)
  else filename

example : natToStr 1 = "1".data := by decide
example : natToStr 210 = "210".data := by decide
example : splitext ("a.b.mp3".data) = ("a.b".data, ".mp3".data) := by decide
example : splitext (".mp3".data) = (".mp3".data, []) := by decide
example : splitext ("abc".data) = ("abc".data, []) := by decide
example : resolveName [(("t.mp3".data : Str), [])] ("t.mp3".data) = "t_1.mp3".data := by decide

/-! ## The Resolver/Downloader: `download_mp3` -/

/-- `download_mp3` from `thec.py`.  Fetch the URL (exception → failure);
fail on a 4xx/5xx status; if the response sniffs as HTML, locate the first
`<audio>` element (`soup.find('audio')`), read its `src` (absent either →
failure), resolve it against the candidate URL and fetch it, then write
the stream body under a name sanitized from the *resolved* URL's path;
otherwise write the already-fetched body under a name sanitized from the
candidate URL's path.  Either way a written file below 1000 bytes is
removed again and failure is reported.  Returns the success flag and the
resulting directory.  (The `referer` argument only feeds the request
headers, i.e. the external fetch capability; progress printing and
`time.sleep` are I/O with no effect on the result.) -/
def download_mp3 (env : Env) (mp3_url : Str) (referer : Option Str) (fs : FileSys) :
    Bool × FileSys :=
  match env.fetch mp3_url with
  | none => (false, fs)
  | some response =>
    if okStatus response then
      if htmlSniff response then
        match response.doc.audios.head? with
        | none => (false, fs)
        | some audioTag =>
          match audioTag.src with
          | none => (false, fs)
          | some src =>
            let real_mp3_url := urljoin mp3_url src
            match env.fetch real_mp3_url with
            | none => (false, fs)
            | some mp3_response =>
              if okStatus mp3_response then
                let filename :=
                  resolveName fs (sanitize_filename (osBasename (urlparse real_mp3_url).path))
                let fs2 := fsWrite fs filename mp3_response.body
                if mp3_response.body.length < 1000 then (false, fsRemove fs2 filename)
                else (true, fs2)
              else (false, fs)
      else
        let filename := resolveName fs (sanitize_filename (osBasename (urlparse mp3_url).path))
        let fs2 := fsWrite fs filename response.body
        if response.body.length < 1000 then (false, fsRemove fs2 filename)
        else (true, fs2)
    else (false, fs)

/-- The write `download_mp3` will attempt for a candidate URL, independent
of the directory state: the pre-collision filename and the body, or `none`
when the attempt fails before any write begins.  This is a projection of
`download_mp3`'s case structure, used to state its properties. -/
def plannedWrite (env : Env) (mp3_url : Str) : Option (Str × Str) :=
  match env.fetch mp3_url with
  | none => none
  | some response =>
    if okStatus response then
      if htmlSniff response then
        match response.doc.audios.head? with
        | none => none
        | some audioTag =>
          match audioTag.src with
          | none => none
          | some src =>
            let real_mp3_url := urljoin mp3_url src
            match env.fetch real_mp3_url with
            | none => none
            | some mp3_response =>
              if okStatus mp3_response then
                some (sanitize_filename (osBasename (urlparse real_mp3_url).path),
                      mp3_response.body)
              else none
      else
        some (sanitize_filename (osBasename (urlparse mp3_url).path), response.body)
    else none

/-! ## The Media-URL Extractor: `find_real_mp3_on_page`

Methods 1 and 2 read the parsed document; method 3 scans the raw body
text with `re.findall(r'https?://[^\s<>"\']+\.mp3(?:\?[^\s<>"\']*)?', ...,
re.IGNORECASE)` and right-strips `",;)\']` from each match.  The scanner
below reproduces that regex's leftmost, greedy-with-backtracking matching:
at a position starting with `http://`/`https://` (case-insensitive), take
the maximal run of characters outside `\s<>"'`, split it at the last
case-insensitive `.mp3`, and extend over the rest of the run when a query
string follows; scanning resumes after each match, or one character along
when there is none. -/

/-- The character class `[^\s<>"\']`. -/
def urlChar (c : Char) : Bool :=
  !(isPySpace c || c == '<' || c == '>' || c == '"' || c == '\'')

/-- Largest index at which `.mp3` starts in the (already lower-cased)
run, mirroring the regex engine backtracking `[^\s<>"\']+` from longest. -/
def lastDotMp3 : Str → Option Nat
  | [] => none
  | c :: rest =>
    match lastDotMp3 rest with
    | some k => some (k + 1)
    | none => if mp3Ext.isPrefixOf (c :: rest) then some 0 else none

/-- Try the mp3-URL regex at the start of `s`; on success return the
matched text and the remainder of `s` after the match. -/
def matchMp3At (s : Str) : Option (Str × Str) :=
  let schemeLen :=
    if "https://".data.isPrefixOf (pyLower (s.take 8)) then some 8
    else if "http://".data.isPrefixOf (pyLower (s.take 7)) then some 7
    else none
  match schemeLen with
  | none => none
  | some n =>
    let scheme := s.take n
    let rest := s.drop n
    let run := rest.takeWhile urlChar
    match lastDotMp3 (pyLower run) with
    | none => none
    | some k =>
      let stop := k + 4
      if (run.drop stop).head? = some '?' then
        some (scheme ++ run, rest.drop run.length)
      else
        some (scheme ++ run.take stop, rest.drop stop)

/-- Worker for `scanMp3`; the fuel (the text length) bounds the number of
scan steps, each of which consumes at least one character. -/
def scanMp3Aux : Nat → Str → List Str
  | 0, _ => []
  | _ + 1, [] => []
  | fuel + 1, c :: rest =>
    match matchMp3At (c :: rest) with
    | some (m, after) => m :: scanMp3Aux fuel after
    | none => scanMp3Aux fuel rest

/-- All matches of the mp3-URL pattern in the page text, in order. -/
def scanMp3 (text : Str) : List Str := scanMp3Aux text.length text

/-- `match.rstrip('",;)\']')`. -/
def rstripJunk (s : Str) : Str :=
  (s.reverse.dropWhile
    (fun c => c == '"' || c == ',' || c == ';' || c == ')' || c == '\'' || c == ']')).reverse

/-- First-occurrence deduplication, modelling Python's `list(set(xs))`.
CPython enumerates a set of strings in a hash-seed-dependent, unspecified
order; the theorems below rely only on the membership and distinctness of
the result, never on this model's order, and the one counterexample about
ordering is arranged to hold under every enumeration of the set. -/
def pySetListAux : List Str → List Str → List Str
  | _, [] => []
  | seen, x :: xs =>
    if x ∈ seen then pySetListAux seen xs else x :: pySetListAux (x :: seen) xs

/-- `list(set(xs))` (see `pySetListAux`). -/
def pySetList (xs : List Str) : List Str := pySetListAux [] xs

/-- The `'.mp3' in s.lower()` test. -/
def containsMp3 (s : Str) : Bool := strContains mp3Ext (pyLower s)

/-- Method-1 candidates of one `<audio>` element: its `src` and its nested
`<source>` elements' `src`s, each included (joined to the page URL) when
the raw attribute contains `.mp3`. -/
def audioCandidates (page_url : Str) (a : AudioTag) : List Str :=
  (match a.src with
   | some src => if containsMp3 src then [urljoin page_url src] else []
   | none => []) ++
  a.sources.foldr
    (fun s acc =>
      (match s with
       | some src => if containsMp3 src then [urljoin page_url src] else []
       | none => []) ++ acc) []

/-- `find_real_mp3_on_page` from `thec.py`: on a successful fetch, union
(as `list(set(...))`) of the embedded-player scan, the anchor scan and the
raw-text pattern scan; the empty list when the fetch raises or the status
is 4xx/5xx (the `except` branch).  `base_domain` is accepted and unused,
as in the source ("Don't filter by domain"). -/
def find_real_mp3_on_page (env : Env) (page_url base_domain : Str) : List Str :=
  match env.fetch page_url with
  | none => []
  | some response =>
    if okStatus response then
      let m1 := response.doc.audios.foldr (fun a acc => audioCandidates page_url a ++ acc) []
      let m2 := response.doc.anchors.foldr
        (fun href acc =>
          (if containsMp3 href then [urljoin page_url href] else []) ++ acc) []
      let m3 := (scanMp3 response.body).map rstripJunk
      pySetList (m1 ++ m2 ++ m3)
    else []

/-! ## The Link Discoverer: `get_linked_pages` -/

/-- The same-domain links appended by `get_linked_pages`'s loop, in
document order and with duplicates: each `href` resolved against the page
URL and kept when its netloc equals the base domain's netloc. -/
def discoveredLinks (env : Env) (page_url base_domain : Str) : List Str :=
  match env.fetch page_url with
  | none => []
  | some response =>
    if okStatus response then
      response.doc.anchors.foldr
        (fun href acc =>
          let full_url := urljoin page_url href
          (if (urlparse full_url).netloc = (urlparse base_domain).netloc
           then [full_url] else []) ++ acc) []
    else []

/-- `get_linked_pages` from `thec.py`: the discovered same-domain links,
deduplicated by `list(set(...))`; the empty list when the fetch raises or
the status is 4xx/5xx. -/
def get_linked_pages (env : Env) (page_url base_domain : Str) : List Str :=
  pySetList (discoveredLinks env page_url base_domain)

/-- Whether fetching a page succeeds as far as the extractor/discoverer
are concerned (no exception, status below 400). -/
def pageFetchOk (env : Env) (u : Str) : Bool :=
  match env.fetch u with
  | none => false
  | some r => okStatus r

/-! ## The Crawl Orchestrator: the body of `main`

`main`'s console I/O, directory creation and sleeps are elided; the crawl
state it threads through the two loops is modelled explicitly.  The
`downloads` field is the trace of URLs passed to `download_mp3`, most
recent first, and `seen` models the `all_mp3s` set (membership is all the
code queries). -/

structure RunState where
  seen : List Str
  downloads : List Str
  fs : FileSys
  count : Nat

/-- One iteration of `for mp3 in mp3s: if mp3 not in all_mp3s: ...`:
skip a seen URL; otherwise insert it into the seen set, invoke the
downloader, and count a success. -/
def processCandidate (env : Env) (referer : Option Str) (st : RunState) (mp3 : Str) :
    RunState :=
  if mp3 ∈ st.seen then st
  else
    let r := download_mp3 env mp3 referer st.fs
    { seen := mp3 :: st.seen
      downloads := mp3 :: st.downloads
      fs := r.2
      count := st.count + (if r.1 then 1 else 0) }

/-- `if not start_url.startswith('http'): start_url = 'https://' + start_url`. -/
def normalizeSeed (s : Str) : Str :=
  if "http".data.isPrefixOf s then s else "https://".data ++ s

/-- `base_domain = f"{urlparse(start_url).scheme}://{urlparse(start_url).netloc}"`. -/
def baseDomain (u : Str) : Str :=
  (urlparse u).scheme ++ "://".data ++ (urlparse u).netloc

/-- The pages the `LinkedExtract` stage iterates over:
`linked_pages[:100]`. -/
def linkedExtractPages (env : Env) (start_url0 : Str) : List Str :=
  let start_url := normalizeSeed start_url0
  (get_linked_pages env start_url (baseDomain start_url)).take 100

/-- The crawl of `main`: extract-and-download on the seed page, then on
each of the first 100 linked pages, with the seed (resp. the linked page)
as referer. -/
def runCrawl (env : Env) (start_url0 : Str) : RunState :=
  let start_url := normalizeSeed start_url0
  let base_domain := baseDomain start_url
  let st0 : RunState := ⟨[], [], [], 0⟩
  let st1 := (find_real_mp3_on_page env start_url base_domain).foldl
    (processCandidate env (some start_url)) st0
  (linkedExtractPages env start_url0).foldl
    (fun st page_url =>
      (find_real_mp3_on_page env page_url base_domain).foldl
        (processCandidate env (some page_url)) st) st1

example :
    scanMp3 ("see http://h/a.mp3 or https://h/b.MP3?x=1) end".data) =
      ["http://h/a.mp3".data, "https://h/b.MP3?x=1)".data] := by decide
example :
    (scanMp3 ("x HTTP://h/q.mp3y z".data)).map rstripJunk = ["HTTP://h/q.mp3".data] := by decide
example : pySetList ["a".data, "b".data, "a".data] = ["a".data, "b".data] := by decide

/-! ## Helper lemmas: list and pipeline-stage facts -/

theorem takeWhile_all {p : Char → Bool} :
    ∀ {l : Str}, (∀ c ∈ l, p c = true) → l.takeWhile p = l
  | [], _ => rfl
  | c :: l, h => by
    simp only [List.takeWhile_cons, h c (by simp)]
    exact congrArg (c :: ·) (takeWhile_all fun d hd => h d (by simp [hd]))

theorem dropWhile_head_false {p : Char → Bool} {l : Str}
    (h : ∀ c, l.head? = some c → p c = false) : l.dropWhile p = l := by
  cases l with
  | nil => rfl
  | cons c l => simp [List.dropWhile_cons, h c rfl]

theorem head?_dropWhile {p : Char → Bool} :
    ∀ {l : Str} {c : Char}, (l.dropWhile p).head? = some c → p c = false := by
  intro l
  induction l with
  | nil => intro c h; simp at h
  | cons a l ih =>
    intro c h
    by_cases ha : p a
    · exact ih (by simpa [List.dropWhile_cons, ha] using h)
    · simp only [List.dropWhile_cons, if_neg ha, List.head?_cons, Option.some.injEq] at h
      simpa [← h] using ha

theorem mem_dropWhile {p : Char → Bool} {l : Str} {c : Char}
    (h : c ∈ l.dropWhile p) : c ∈ l :=
  (List.dropWhile_sublist p).subset h

/-- The character sets preserved pointwise by each pipeline stage. -/
def headNotWs (l : Str) : Prop := ∀ c, l.head? = some c → isPySpace c = false

/-- No two adjacent whitespace characters. -/
def noWsPair : Str → Prop
  | [] => True
  | [_] => True
  | a :: b :: rest => ¬(isPySpace a = true ∧ isPySpace b = true) ∧ noWsPair (b :: rest)

theorem noWsPair_cons {a : Char} {l : Str} :
    noWsPair (a :: l) ↔
      (∀ b, l.head? = some b → ¬(isPySpace a = true ∧ isPySpace b = true)) ∧ noWsPair l := by
  cases l with
  | nil => simp [noWsPair]
  | cons b l => simp [noWsPair]

theorem noWsPair_tail {a : Char} {l : Str} (h : noWsPair (a :: l)) : noWsPair l :=
  (noWsPair_cons.1 h).2

theorem noWsPair_prefix : ∀ {l₁ l₂ : Str}, l₁ <+: l₂ → noWsPair l₂ → noWsPair l₁ := by
  intro l₁
  induction l₁ with
  | nil => intro l₂ _ _; trivial
  | cons a l₁ ih =>
    intro l₂ hp h
    obtain ⟨t, ht⟩ := hp
    cases l₂ with
    | nil => simp at ht
    | cons b l₂ =>
      rw [List.cons_append] at ht
      injection ht with h1 h2
      subst h1
      refine noWsPair_cons.2 ⟨?_, ih ⟨t, h2⟩ (noWsPair_tail h)⟩
      intro c hc
      have hc2 : l₂.head? = some c := by
        cases l₁ with
        | nil => simp at hc
        | cons x l₁ =>
          simp only [List.head?_cons, Option.some.injEq] at hc
          rw [← h2, hc]
          simp
      exact (noWsPair_cons.1 h).1 c hc2

theorem noWsPair_suffix : ∀ {t l : Str}, noWsPair (t ++ l) → noWsPair l := by
  intro t
  induction t with
  | nil => intro l h; exact h
  | cons a t ih => intro l h; exact ih (noWsPair_tail h)

theorem noWsPair_dropWhile {p : Char → Bool} {l : Str} (h : noWsPair l) :
    noWsPair (l.dropWhile p) := by
  obtain ⟨t, ht⟩ := @List.dropWhile_suffix _ l p
  exact noWsPair_suffix (ht ▸ h)

theorem noWsPair_append {l e : Str}
    (hl : noWsPair l) (he : noWsPair e)
    (hhead : ∀ c, e.head? = some c → isPySpace c = false) : noWsPair (l ++ e) := by
  induction l with
  | nil => exact he
  | cons a l ih =>
    rw [List.cons_append]
    refine noWsPair_cons.2 ⟨?_, ih (noWsPair_tail hl)⟩
    intro b hb
    cases l with
    | nil =>
      rw [List.nil_append] at hb
      intro hab
      exact absurd hab.2 (by simp [hhead b hb])
    | cons x l =>
      rw [List.cons_append, List.head?_cons] at hb
      injection hb with hb
      exact (noWsPair_cons.1 hl).1 b (by simp [hb])

/-! Facts about `collapseWsAux`. -/

theorem cw_mem : ∀ {s : Str} {b : Bool} {c : Char},
    c ∈ collapseWsAux b s → c ∈ s ∨ c = ' ' := by
  intro s
  induction s with
  | nil => intro b c hm; cases b <;> simp [collapseWsAux] at hm
  | cons a s ih =>
    intro b c hm
    by_cases ha : isPySpace a
    · cases b with
      | true =>
        rw [show collapseWsAux true (a :: s) = collapseWsAux true s by
          simp [collapseWsAux, ha]] at hm
        rcases ih hm with h1 | h1
        · exact Or.inl (List.mem_cons_of_mem a h1)
        · exact Or.inr h1
      | false =>
        rw [show collapseWsAux false (a :: s) = ' ' :: collapseWsAux true s by
          simp [collapseWsAux, ha]] at hm
        rcases List.mem_cons.1 hm with h1 | h1
        · exact Or.inr h1
        · rcases ih h1 with h2 | h2
          · exact Or.inl (List.mem_cons_of_mem a h2)
          · exact Or.inr h2
    · rw [show collapseWsAux b (a :: s) = a :: collapseWsAux false s by
        simp [collapseWsAux, ha]] at hm
      rcases List.mem_cons.1 hm with h1 | h1
      · exact Or.inl (by simp [h1])
      · rcases ih h1 with h2 | h2
        · exact Or.inl (List.mem_cons_of_mem a h2)
        · exact Or.inr h2

theorem cw_allBlank : ∀ {s : Str} {b : Bool} {c : Char},
    c ∈ collapseWsAux b s → isPySpace c = true → c = ' ' := by
  intro s
  induction s with
  | nil => intro b c hm _; cases b <;> simp [collapseWsAux] at hm
  | cons a s ih =>
    intro b c hm hc
    by_cases ha : isPySpace a
    · cases b with
      | true =>
        rw [show collapseWsAux true (a :: s) = collapseWsAux true s by
          simp [collapseWsAux, ha]] at hm
        exact ih hm hc
      | false =>
        rw [show collapseWsAux false (a :: s) = ' ' :: collapseWsAux true s by
          simp [collapseWsAux, ha]] at hm
        rcases List.mem_cons.1 hm with h1 | h1
        · exact h1
        · exact ih h1 hc
    · rw [show collapseWsAux b (a :: s) = a :: collapseWsAux false s by
        simp [collapseWsAux, ha]] at hm
      rcases List.mem_cons.1 hm with h1 | h1
      · subst h1; rw [hc] at ha; exact absurd rfl ha
      · exact ih h1 hc

theorem cw_true_headNotWs : ∀ {s : Str}, headNotWs (collapseWsAux true s) := by
  intro s
  induction s with
  | nil => intro c hm; simp [collapseWsAux] at hm
  | cons a s ih =>
    intro c hm
    by_cases ha : isPySpace a
    · rw [show collapseWsAux true (a :: s) = collapseWsAux true s by
        simp [collapseWsAux, ha]] at hm
      exact ih c hm
    · rw [show collapseWsAux true (a :: s) = a :: collapseWsAux false s by
        simp [collapseWsAux, ha]] at hm
      rw [List.head?_cons] at hm
      injection hm with hm
      rw [← hm]
      simpa using ha

theorem cw_noWsPair : ∀ {s : Str} {b : Bool}, noWsPair (collapseWsAux b s) := by
  intro s
  induction s with
  | nil => intro b; cases b <;> trivial
  | cons a s ih =>
    intro b
    by_cases ha : isPySpace a
    · cases b with
      | true =>
        rw [show collapseWsAux true (a :: s) = collapseWsAux true s by
          simp [collapseWsAux, ha]]
        exact ih
      | false =>
        rw [show collapseWsAux false (a :: s) = ' ' :: collapseWsAux true s by
          simp [collapseWsAux, ha]]
        refine noWsPair_cons.2 ⟨?_, ih⟩
        intro c hc hpair
        have := cw_true_headNotWs c hc
        rw [hpair.2] at this
        exact absurd this (by simp)
    · rw [show collapseWsAux b (a :: s) = a :: collapseWsAux false s by
        simp [collapseWsAux, ha]]
      refine noWsPair_cons.2 ⟨?_, ih⟩
      intro c hc hpair
      exact absurd hpair.1 (by simp [ha])

theorem cw_true_eq_false {s : Str} (h : headNotWs s) :
    collapseWsAux true s = collapseWsAux false s := by
  cases s with
  | nil => rfl
  | cons a s =>
    have ha : isPySpace a = false := h a rfl
    simp [collapseWsAux, ha]

theorem cw_id : ∀ {s : Str},
    (∀ c ∈ s, isPySpace c = true → c = ' ') → noWsPair s → collapseWsAux false s = s := by
  intro s
  induction s with
  | nil => intro _ _; rfl
  | cons a s ih =>
    intro hblank hpair
    by_cases ha : isPySpace a
    · have ha' : a = ' ' := hblank a (by simp) ha
      have hhead : headNotWs s := by
        intro c hc
        by_contra hc'
        rw [Bool.not_eq_false] at hc'
        exact (noWsPair_cons.1 hpair).1 c hc ⟨ha, hc'⟩
      rw [show collapseWsAux false (a :: s) = ' ' :: collapseWsAux true s by
        simp [collapseWsAux, ha]]
      rw [cw_true_eq_false hhead,
        ih (fun c hc => hblank c (by simp [hc])) (noWsPair_tail hpair), ha']
    · rw [show collapseWsAux false (a :: s) = a :: collapseWsAux false s by
        simp [collapseWsAux, ha]]
      rw [ih (fun c hc => hblank c (by simp [hc])) (noWsPair_tail hpair)]

theorem collapseWs_id {s : Str}
    (hblank : ∀ c ∈ s, isPySpace c = true → c = ' ') (hpair : noWsPair s) :
    collapseWs s = s := cw_id hblank hpair

theorem pyStrip_id {s : Str} (h1 : headNotWs s) (h2 : headNotWs s.reverse) :
    pyStrip s = s := by
  unfold pyStrip
  rw [dropWhile_head_false h1, dropWhile_head_false h2, List.reverse_reverse]

theorem mem_pyStrip {s : Str} {c : Char} (h : c ∈ pyStrip s) : c ∈ s := by
  unfold pyStrip at h
  rw [List.mem_reverse] at h
  have := mem_dropWhile h
  rw [List.mem_reverse] at this
  exact mem_dropWhile this

theorem pyStrip_prefix_of_headNotWs {s : Str} (h : headNotWs s) : pyStrip s <+: s := by
  unfold pyStrip
  rw [dropWhile_head_false h]
  have hsuf : s.reverse.dropWhile isPySpace <:+ s.reverse := List.dropWhile_suffix _
  have h2 := @List.reverse_prefix Char (s.reverse.dropWhile isPySpace) s.reverse
  rw [List.reverse_reverse] at h2
  exact h2.2 hsuf

theorem headNotWs_of_prefix {l₁ l₂ : Str} (hp : l₁ <+: l₂) (h : headNotWs l₂) :
    headNotWs l₁ := by
  intro c hc
  obtain ⟨t, rfl⟩ := hp
  cases l₁ with
  | nil => simp at hc
  | cons a l₁ => simp at hc; exact h c (by simp [hc])

theorem pyUnquoteAux_id : ∀ (fuel : Nat) {s : Str}, (∀ c ∈ s, c ≠ '%') →
    pyUnquoteAux fuel s = s := by
  intro fuel
  induction fuel with
  | zero => intro s _; rfl
  | succ fuel ih =>
    intro s h
    cases s with
    | nil => rfl
    | cons c rest =>
      have hc : c ≠ '%' := h c (by simp)
      simp only [pyUnquoteAux, if_neg hc]
      rw [ih (fun d hd => h d (by simp [hd]))]

theorem pyUnquote_id {s : Str} (h : ∀ c ∈ s, c ≠ '%') : pyUnquote s = s :=
  pyUnquoteAux_id _ h

theorem osBasename_id {s : Str} (h : ∀ c ∈ s, c ≠ '/') : osBasename s = s := by
  unfold osBasename
  rw [takeWhile_all (fun c hc => by
    have := h c (List.mem_reverse.1 hc)
    simpa using this), List.reverse_reverse]

/-- Whether the string starts with a decimal digit (the trigger of the
numeric-prefix strip). -/
def headIsDigit : Str → Bool
  | [] => false
  | c :: _ => c.isDigit

theorem stripLeadingNum_id {s : Str} (h : headIsDigit s = false) : stripLeadingNum s = s := by
  cases s with
  | nil => rfl
  | cons c rest =>
    have hc : c.isDigit = false := h
    simp [stripLeadingNum, hc]

theorem removeForbidden_id {s : Str} (h : ∀ c ∈ s, isForbidden c = false) :
    removeForbidden s = s := by
  unfold removeForbidden
  exact List.filter_eq_self.2 (fun c hc => by simp [h c hc])

theorem mem_removeForbidden {s : Str} {c : Char} (h : c ∈ removeForbidden s) :
    isForbidden c = false := by
  unfold removeForbidden at h
  simpa using (List.of_mem_filter h)

theorem noWsPair_of_all_nonspace : ∀ {l : Str}, (∀ c ∈ l, isPySpace c = false) → noWsPair l := by
  intro l
  induction l with
  | nil => intro _; trivial
  | cons a l ih =>
    intro h
    refine noWsPair_cons.2 ⟨?_, ih (fun c hc => h c (by simp [hc]))⟩
    intro b _ hpair
    exact absurd hpair.1 (by simp [h a (by simp)])

attribute [irreducible] noWsPair

theorem toLower_of_space {c : Char} (h : isPySpace c = true) : Char.toLower c = c := by
  simp only [isPySpace, Bool.or_eq_true, beq_iff_eq] at h
  rcases h with ((((rfl | rfl) | rfl) | rfl) | rfl) | rfl <;> decide

/-! ## Structural facts about `sanitize_filename`'s output -/

/-- The value entering the fallback/extension steps of `sanitize_filename`. -/
def preTail (s : Str) : Str :=
  (pyStrip (collapseWs (removeForbidden (stripLeadingNum (osBasename (pyUnquote s)))))).take 200

theorem sanitize_eq (s : Str) : sanitize_filename s = sanitizeTail (preTail s) := rfl

theorem dropTrailing_isPrefixOf {p : Char → Bool} (x : Str) :
    (x.reverse.dropWhile p).reverse <+: x := by
  have hsuf : x.reverse.dropWhile p <:+ x.reverse := List.dropWhile_suffix _
  have h := (@List.reverse_prefix Char (x.reverse.dropWhile p) x.reverse).2 hsuf
  rwa [List.reverse_reverse] at h

theorem preTail_forbidden {s : Str} {c : Char} (h : c ∈ preTail s) : isForbidden c = false := by
  have h1 := List.take_subset _ _ h
  have h2 := mem_pyStrip h1
  rcases cw_mem h2 with h3 | h3
  · exact mem_removeForbidden h3
  · subst h3; decide

theorem preTail_allBlank {s : Str} {c : Char} (h : c ∈ preTail s)
    (hc : isPySpace c = true) : c = ' ' :=
  cw_allBlank (mem_pyStrip (List.take_subset _ _ h)) hc

theorem preTail_noWsPair (s : Str) : noWsPair (preTail s) := by
  refine noWsPair_prefix (List.take_prefix _ _) ?_
  unfold pyStrip
  refine noWsPair_prefix (dropTrailing_isPrefixOf _) ?_
  exact noWsPair_dropWhile cw_noWsPair

theorem preTail_headNotWs (s : Str) : headNotWs (preTail s) := by
  refine headNotWs_of_prefix (List.take_prefix _ _) ?_
  unfold pyStrip
  refine headNotWs_of_prefix (dropTrailing_isPrefixOf _) ?_
  intro c hc
  exact head?_dropWhile hc

theorem preTail_len (s : Str) : (preTail s).length ≤ 200 := by
  unfold preTail
  rw [List.length_take]
  exact Nat.min_le_left _ _

/-! Facts about `sanitizeTail`'s output, given those properties. -/

theorem lowerEndsWithMp3_append (v : Str) : lowerEndsWithMp3 (v ++ mp3Ext) = true := by
  unfold lowerEndsWithMp3
  rw [decide_eq_true_iff]
  unfold pyLower
  rw [List.map_append, List.length_append]
  have hlow : mp3Ext.map Char.toLower = mp3Ext := by decide
  rw [hlow, show mp3Ext.length = 4 from rfl, Nat.add_sub_cancel,
    ← List.length_map v Char.toLower, List.drop_left]

theorem sanitizeTail_ne_nil (f5 : Str) : sanitizeTail f5 ≠ [] := by
  unfold sanitizeTail
  by_cases h : f5 = [] ∨ f5 = mp3Ext
  · rw [if_pos h]; decide
  · rw [if_neg h]
    by_cases he : lowerEndsWithMp3 f5 = true
    · rw [if_pos he]
      exact fun hf => h (Or.inl hf)
    · rw [if_neg he]
      intro hf
      rcases List.append_eq_nil.1 hf with ⟨hf1, _⟩
      exact h (Or.inl hf1)

theorem sanitizeTail_len {f5 : Str} (h : f5.length ≤ 200) :
    (sanitizeTail f5).length ≤ 204 := by
  unfold sanitizeTail
  by_cases hc : f5 = [] ∨ f5 = mp3Ext
  · rw [if_pos hc]; decide
  · rw [if_neg hc]
    by_cases he : lowerEndsWithMp3 f5 = true
    · rw [if_pos he]; omega
    · rw [if_neg he]
      rw [List.length_append, show mp3Ext.length = 4 from rfl]
      omega

theorem sanitizeTail_forbidden {f5 : Str} (hf : ∀ c ∈ f5, isForbidden c = false) :
    ∀ c ∈ sanitizeTail f5, isForbidden c = false := by
  intro c hc
  unfold sanitizeTail at hc
  have hext : ∀ d ∈ mp3Ext, isForbidden d = false := by decide
  by_cases h : f5 = [] ∨ f5 = mp3Ext
  · rw [if_pos h] at hc
    by_cases he : lowerEndsWithMp3 fallbackName
    · rw [if_pos he] at hc
      revert hc; revert c; decide
    · rw [if_neg he] at hc
      rcases List.mem_append.1 hc with h1 | h1
      · revert h1; revert c; decide
      · exact hext c h1
  · rw [if_neg h] at hc
    by_cases he : lowerEndsWithMp3 f5
    · rw [if_pos he] at hc
      exact hf c hc
    · rw [if_neg he] at hc
      rcases List.mem_append.1 hc with h1 | h1
      · exact hf c h1
      · exact hext c h1

theorem sanitizeTail_ends (f5 : Str) : lowerEndsWithMp3 (sanitizeTail f5) = true := by
  unfold sanitizeTail
  by_cases h : f5 = [] ∨ f5 = mp3Ext
  · rw [if_pos h]
    by_cases he : lowerEndsWithMp3 fallbackName
    · rw [if_pos he]; exact he
    · rw [if_neg he]; exact lowerEndsWithMp3_append _
  · rw [if_neg h]
    by_cases he : lowerEndsWithMp3 f5
    · rw [if_pos he]; exact he
    · rw [if_neg he]; exact lowerEndsWithMp3_append _

theorem sanitizeTail_allBlank {f5 : Str}
    (h : ∀ c ∈ f5, isPySpace c = true → c = ' ') :
    ∀ c ∈ sanitizeTail f5, isPySpace c = true → c = ' ' := by
  intro c hc hsp
  unfold sanitizeTail at hc
  have hext : ∀ d ∈ mp3Ext, isPySpace d = true → d = ' ' := by decide
  by_cases hb : f5 = [] ∨ f5 = mp3Ext
  · rw [if_pos hb] at hc
    by_cases he : lowerEndsWithMp3 fallbackName
    · rw [if_pos he] at hc; revert hsp; revert hc; revert c; decide
    · rw [if_neg he] at hc
      rcases List.mem_append.1 hc with h1 | h1
      · revert hsp; revert h1; revert c; decide
      · exact hext c h1 hsp
  · rw [if_neg hb] at hc
    by_cases he : lowerEndsWithMp3 f5
    · rw [if_pos he] at hc; exact h c hc hsp
    · rw [if_neg he] at hc
      rcases List.mem_append.1 hc with h1 | h1
      · exact h c h1 hsp
      · exact hext c h1 hsp

theorem sanitizeTail_noWsPair {f5 : Str} (h : noWsPair f5) : noWsPair (sanitizeTail f5) := by
  unfold sanitizeTail
  have hext : ∀ d ∈ mp3Ext, isPySpace d = false := by decide
  have hfall : ∀ d ∈ fallbackName, isPySpace d = false := by decide
  have hexthead : ∀ c, mp3Ext.head? = some c → isPySpace c = false := by
    intro c hc
    rw [show mp3Ext.head? = some '.' from rfl] at hc
    injection hc with hc
    rw [← hc]; decide
  by_cases hb : f5 = [] ∨ f5 = mp3Ext
  · rw [if_pos hb]
    by_cases he : lowerEndsWithMp3 fallbackName = true
    · rw [if_pos he]; exact noWsPair_of_all_nonspace hfall
    · rw [if_neg he]
      exact noWsPair_append (noWsPair_of_all_nonspace hfall)
        (noWsPair_of_all_nonspace hext) hexthead
  · rw [if_neg hb]
    by_cases he : lowerEndsWithMp3 f5 = true
    · rw [if_pos he]; exact h
    · rw [if_neg he]
      exact noWsPair_append h (noWsPair_of_all_nonspace hext) hexthead

theorem head?_append_of_ne_nil {l e : Str} (h : l ≠ []) : (l ++ e).head? = l.head? := by
  cases l with
  | nil => exact absurd rfl h
  | cons a l => rfl

theorem sanitizeTail_headNotWs {f5 : Str} (h : headNotWs f5) :
    headNotWs (sanitizeTail f5) := by
  unfold sanitizeTail
  have hfall : headNotWs fallbackName := by
    intro c hc
    rw [show fallbackName.head? = some 'a' from rfl] at hc
    injection hc with hc
    rw [← hc]; decide
  by_cases hb : f5 = [] ∨ f5 = mp3Ext
  · rw [if_pos hb]
    by_cases he : lowerEndsWithMp3 fallbackName
    · rw [if_pos he]; exact hfall
    · rw [if_neg he]
      intro c hc
      rw [head?_append_of_ne_nil (by decide)] at hc
      exact hfall c hc
  · rw [if_neg hb]
    have hne : f5 ≠ [] := fun hf => hb (Or.inl hf)
    by_cases he : lowerEndsWithMp3 f5
    · rw [if_pos he]; exact h
    · rw [if_neg he]
      intro c hc
      rw [head?_append_of_ne_nil hne] at hc
      exact h c hc

theorem sanitizeTail_ne_mp3Ext (f5 : Str) : sanitizeTail f5 ≠ mp3Ext := by
  unfold sanitizeTail
  by_cases hb : f5 = [] ∨ f5 = mp3Ext
  · rw [if_pos hb]
    by_cases he : lowerEndsWithMp3 fallbackName
    · rw [if_pos he]; decide
    · rw [if_neg he]; decide
  · rw [if_neg hb]
    have hne : f5 ≠ [] := fun hf => hb (Or.inl hf)
    by_cases he : lowerEndsWithMp3 f5
    · rw [if_pos he]; exact fun hf => hb (Or.inr hf)
    · rw [if_neg he]
      intro hf
      have := congrArg List.length hf
      rw [List.length_append, show mp3Ext.length = 4 from rfl] at this
      have : f5.length = 0 := by omega
      exact hne (List.length_eq_zero.1 this)

/-- From the (case-insensitive) `.mp3` suffix: the last character of the
name lower-cases to `3`, hence is not whitespace. -/
theorem lastNotWs_of_ends {y : Str} (hne : y ≠ []) (he : lowerEndsWithMp3 y = true) :
    headNotWs y.reverse := by
  intro c hc
  have hdrop : (pyLower y).drop (y.length - 4) = mp3Ext := by
    unfold lowerEndsWithMp3 at he
    exact of_decide_eq_true he
  have hsplit : pyLower y = (pyLower y).take (y.length - 4) ++ mp3Ext := by
    rw [← hdrop, List.take_append_drop]
  have hrev : (pyLower y).reverse.head? = some '3' := by
    rw [hsplit, List.reverse_append, show mp3Ext.reverse = '3' :: ['p', 'm', '.'] from rfl]
    rfl
  have hmap : (pyLower y).reverse = y.reverse.map Char.toLower := by
    unfold pyLower
    rw [List.map_reverse]
  rw [hmap] at hrev
  cases hrevy : y.reverse with
  | nil => rw [hrevy] at hrev; simp at hrev
  | cons d t =>
    rw [hrevy] at hrev hc
    rw [List.map_cons, List.head?_cons] at hrev
    rw [List.head?_cons] at hc
    injection hrev with hrev
    injection hc with hc
    subst hc
    by_contra hsp
    rw [Bool.not_eq_false] at hsp
    rw [toLower_of_space hsp] at hrev
    subst hrev
    exact absurd hsp (by decide)

/-! The bundled output facts, at the level of `sanitize_filename`. -/

theorem sanitize_ne_nil (s : Str) : sanitize_filename s ≠ [] := by
  rw [sanitize_eq]; exact sanitizeTail_ne_nil _

theorem sanitize_forbidden {s : Str} : ∀ c ∈ sanitize_filename s, isForbidden c = false := by
  rw [sanitize_eq]; exact sanitizeTail_forbidden (fun _ hc => preTail_forbidden hc)

theorem sanitize_ends (s : Str) : lowerEndsWithMp3 (sanitize_filename s) = true := by
  rw [sanitize_eq]; exact sanitizeTail_ends _

theorem sanitize_allBlank {s : Str} :
    ∀ c ∈ sanitize_filename s, isPySpace c = true → c = ' ' := by
  rw [sanitize_eq]; exact sanitizeTail_allBlank (fun _ hc => preTail_allBlank hc)

theorem sanitize_noWsPair (s : Str) : noWsPair (sanitize_filename s) := by
  have h := sanitizeTail_noWsPair (preTail_noWsPair s)
  rwa [← sanitize_eq] at h

theorem sanitize_headNotWs (s : Str) : headNotWs (sanitize_filename s) := by
  have h := sanitizeTail_headNotWs (preTail_headNotWs s)
  rwa [← sanitize_eq] at h

theorem sanitize_ne_mp3Ext (s : Str) : sanitize_filename s ≠ mp3Ext := by
  rw [sanitize_eq]; exact sanitizeTail_ne_mp3Ext _

theorem sanitize_len (s : Str) : (sanitize_filename s).length ≤ 204 := by
  rw [sanitize_eq]; exact sanitizeTail_len (preTail_len s)

/-- A string with all the structural properties of a sanitizer output,
and additionally free of `%`, not starting with a digit and within the
truncation bound, passes through every stage of `sanitize_filename`
unchanged. -/
theorem sanitize_fixed {y : Str}
    (hforb : ∀ c ∈ y, isForbidden c = false)
    (hblank : ∀ c ∈ y, isPySpace c = true → c = ' ')
    (hpair : noWsPair y)
    (hhead : headNotWs y)
    (hne : y ≠ []) (hnext : y ≠ mp3Ext)
    (hends : lowerEndsWithMp3 y = true)
    (hpct : '%' ∉ y)
    (hdig : headIsDigit y = false)
    (hlen : y.length ≤ 200) :
    sanitize_filename y = y := by
  have e1 : pyUnquote y = y :=
    pyUnquote_id (fun c hc heq => hpct (heq ▸ hc))
  have e2 : osBasename y = y := by
    refine osBasename_id (fun c hc heq => ?_)
    subst heq
    exact absurd (hforb _ hc) (by decide)
  have e3 : stripLeadingNum y = y := stripLeadingNum_id hdig
  have e4 : removeForbidden y = y := removeForbidden_id hforb
  have e5 : collapseWs y = y := collapseWs_id hblank hpair
  have e6 : pyStrip y = y := pyStrip_id hhead (lastNotWs_of_ends hne hends)
  have e7 : y.take 200 = y := List.take_of_length_le hlen
  rw [sanitize_eq]
  show sanitizeTail
    ((pyStrip (collapseWs (removeForbidden (stripLeadingNum (osBasename (pyUnquote y)))))).take
      200) = y
  rw [e1, e2, e3, e4, e5, e6, e7]
  unfold sanitizeTail
  have hcond : ¬(y = [] ∨ y = mp3Ext) := fun h => h.elim hne hnext
  rw [if_neg hcond, if_pos hends]

/-- C3 (corrected): for every input, the output of `sanitize_filename` is
non-empty, at most 204 characters long (200 before the extension may be
appended), contains none of the characters `<>:"/\|?*`, and passes the
lower-cased `.mp3` suffix check.  The claimed bound of 200 fails, see the
counterexample. -/
theorem C3_sanitize_output_spec (s : Str) :
    sanitize_filename s ≠ [] ∧
    (sanitize_filename s).length ≤ 204 ∧
    (∀ c ∈ sanitize_filename s, isForbidden c = false) ∧
    lowerEndsWithMp3 (sanitize_filename s) = true :=
  ⟨sanitize_ne_nil s, sanitize_len s, sanitize_forbidden, sanitize_ends s⟩

set_option maxRecDepth 8000 in
set_option maxHeartbeats 1000000 in
/-- C3, counterexample to the claimed 200-character bound: 201 letters
are truncated to 200 and then get the 4-character extension appended,
giving a 204-character output. -/
theorem C3_counterexample :
    ¬ ((sanitize_filename (List.replicate 201 'a')).length ≤ 200) := by decide

/-- C3, witness: the corrected bundle evaluated at a concrete input. -/
theorem C3_witness :
    sanitize_filename ("A Track?.MP3".data) ≠ [] ∧
    (sanitize_filename ("A Track?.MP3".data)).length ≤ 204 ∧
    (∀ c ∈ sanitize_filename ("A Track?.MP3".data), isForbidden c = false) ∧
    lowerEndsWithMp3 (sanitize_filename ("A Track?.MP3".data)) = true :=
  C3_sanitize_output_spec _

/-- C8 (corrected): `sanitize_filename` is not idempotent in general —
a second application can strip a further numeric prefix (see the
counterexample), percent-decode again, or re-truncate.  It is idempotent
on every output that contains no `%`, does not start with a decimal
digit, and is at most 200 characters long. -/
theorem C8_sanitize_idempotent_amended (s : Str)
    (h1 : '%' ∉ sanitize_filename s)
    (h2 : headIsDigit (sanitize_filename s) = false)
    (h3 : (sanitize_filename s).length ≤ 200) :
    sanitize_filename (sanitize_filename s) = sanitize_filename s :=
  sanitize_fixed sanitize_forbidden sanitize_allBlank (sanitize_noWsPair s)
    (sanitize_headNotWs s) (sanitize_ne_nil s) (sanitize_ne_mp3Ext s) (sanitize_ends s)
    h1 h2 h3

set_option maxRecDepth 8000 in
set_option maxHeartbeats 1000000 in
/-- C8, counterexample: sanitizing `12 34 song.mp3` yields `34 song.mp3`
(one numeric prefix stripped), and sanitizing that again yields
`song.mp3`, so the claimed unconditional idempotence fails. -/
theorem C8_counterexample :
    sanitize_filename (sanitize_filename ("12 34 song.mp3".data)) ≠
      sanitize_filename ("12 34 song.mp3".data) := by decide

/-- C8, witness: hypotheses and conclusion of the amended claim at a
concrete input. -/
theorem C8_witness :
    ('%' ∉ sanitize_filename ("song.mp3".data) ∧
     headIsDigit (sanitize_filename ("song.mp3".data)) = false ∧
     (sanitize_filename ("song.mp3".data)).length ≤ 200) ∧
    sanitize_filename (sanitize_filename ("song.mp3".data)) =
      sanitize_filename ("song.mp3".data) :=
  ⟨⟨by decide, by decide, by decide⟩,
   C8_sanitize_idempotent_amended _ (by decide) (by decide) (by decide)⟩

/-! ## Correctness of the collision loop: a fresh name is always found -/

/-- Value of a decimal string (left inverse of `natToStr`). -/
def decVal (s : Str) : Nat := s.foldl (fun a c => 10 * a + (c.toNat - 48)) 0

theorem decVal_append {s : Str} {c : Char} :
    decVal (s ++ [c]) = 10 * decVal s + (c.toNat - 48) := by
  unfold decVal
  rw [List.foldl_append]
  rfl

theorem digitChar_toNat {d : Nat} (h : d < 10) : (digitChar d).toNat = 48 + d := by
  interval_cases d <;> decide

theorem decVal_toDecimalAux : ∀ (fuel n : Nat), n < fuel → decVal (toDecimalAux fuel n) = n := by
  intro fuel
  induction fuel with
  | zero => intro n h; omega
  | succ fuel ih =>
    intro n h
    by_cases h10 : n < 10
    · rw [show toDecimalAux (fuel + 1) n = [digitChar n] from by simp [toDecimalAux, h10]]
      show 10 * 0 + ((digitChar n).toNat - 48) = n
      rw [digitChar_toNat h10]
      omega
    · rw [show toDecimalAux (fuel + 1) n = toDecimalAux fuel (n / 10) ++ [digitChar (n % 10)]
        from by simp [toDecimalAux, h10]]
      rw [decVal_append, digitChar_toNat (Nat.mod_lt _ (by omega)),
        ih (n / 10) (by omega)]
      omega

theorem natToStr_injective : Function.Injective natToStr := by
  intro a b h
  have ha := decVal_toDecimalAux (a + 1) a (by omega)
  have hb := decVal_toDecimalAux (b + 1) b (by omega)
  rw [← ha, ← hb]
  unfold natToStr at h
  rw [h]

theorem mkName_injective {base ext : Str} : Function.Injective (mkName base ext) := by
  intro a b h
  unfold mkName at h
  have h1 := List.append_cancel_left h
  injection h1 with _ h2
  exact natToStr_injective (List.append_cancel_right h2)

theorem fsExists_iff {fs : FileSys} {n : Str} : fsExists fs n = true ↔ n ∈ fsNames fs := by
  unfold fsExists
  exact decide_eq_true_iff

/-- Pigeonhole: among the counters `1 … |fs| + 1`, some candidate name is
not present in the directory. -/
theorem exists_free_counter (fs : FileSys) (base ext : Str) :
    ∃ i, 1 ≤ i ∧ i ≤ fs.length + 1 ∧ fsExists fs (mkName base ext i) = false := by
  by_contra hall
  push_neg at hall
  have hmem : ∀ i, 1 ≤ i → i ≤ fs.length + 1 → mkName base ext i ∈ fsNames fs := by
    intro i h1 h2
    have := hall i h1 h2
    exact fsExists_iff.1 (by
      cases hb : fsExists fs (mkName base ext i) with
      | true => rfl
      | false => exact absurd hb this)
  set L : List Str := (List.range (fs.length + 1)).map (fun j => mkName base ext (j + 1)) with hL
  have hnodup : L.Nodup := by
    refine List.Nodup.map ?_ (List.nodup_range _)
    intro a b hab
    have := mkName_injective hab
    omega
  have hsub : L ⊆ fsNames fs := by
    intro x hx
    rw [hL] at hx
    obtain ⟨j, hj, rfl⟩ := List.mem_map.1 hx
    rw [List.mem_range] at hj
    exact hmem (j + 1) (by omega) (by omega)
  have hlen : L.length ≤ (fsNames fs).length :=
    (List.subperm_of_subset hnodup hsub).length_le
  rw [hL, List.length_map, List.length_range] at hlen
  unfold fsNames at hlen
  rw [List.length_map] at hlen
  omega

theorem collideFrom_free {fs : FileSys} {base ext : Str} :
    ∀ (fuel counter : Nat),
      (∃ i, counter ≤ i ∧ i < counter + fuel ∧ fsExists fs (mkName base ext i) = false) →
      fsExists fs (collideFrom fs base ext counter fuel) = false := by
  intro fuel
  induction fuel with
  | zero =>
    intro counter h
    obtain ⟨i, h1, h2, _⟩ := h
    omega
  | succ fuel ih =>
    intro counter h
    obtain ⟨i, h1, h2, h3⟩ := h
    show fsExists fs
      (if fsExists fs (mkName base ext counter) then collideFrom fs base ext (counter + 1) fuel
       else mkName base ext counter) = false
    by_cases hc : fsExists fs (mkName base ext counter) = true
    · rw [if_pos hc]
      refine ih (counter + 1) ⟨i, ?_, by omega, h3⟩
      rcases Nat.eq_or_lt_of_le h1 with rfl | hlt
      · rw [h3] at hc; exact absurd hc (by simp)
      · omega
    · rw [if_neg hc]
      cases hb : fsExists fs (mkName base ext counter) with
      | true => exact absurd hb hc
      | false => rfl

/-- The name `download_mp3` writes to is never one that already exists. -/
theorem resolveName_fresh (fs : FileSys) (filename : Str) :
    fsExists fs (resolveName fs filename) = false := by
  unfold resolveName
  by_cases h : fsExists fs filename = true
  · rw [if_pos h]
    obtain ⟨i, h1, h2, h3⟩ := exists_free_counter fs (splitext filename).1 (splitext filename).2
    exact collideFrom_free _ 1 ⟨i, h1, by omega, h3⟩
  · rw [if_neg h]
    cases hb : fsExists fs filename with
    | true => exact absurd hb h
    | false => rfl

/-! Directory algebra around a fresh name. -/

theorem not_mem_of_fsExists_false {fs : FileSys} {n : Str} (h : fsExists fs n = false) :
    n ∉ fsNames fs := by
  intro hm
  rw [fsExists_iff.2 hm] at h
  exact absurd h (by simp)

theorem fsRemove_of_not_exists {fs : FileSys} {n : Str} (h : fsExists fs n = false) :
    fsRemove fs n = fs := by
  have hn := not_mem_of_fsExists_false h
  unfold fsRemove
  refine List.filter_eq_self.2 (fun e he => ?_)
  have : e.1 ≠ n := fun heq => hn (heq ▸ List.mem_map_of_mem Prod.fst he)
  simp [this]

theorem fsWrite_fresh {fs : FileSys} {n c : Str} (h : fsExists fs n = false) :
    fsWrite fs n c = (n, c) :: fs := by
  unfold fsWrite
  rw [fsRemove_of_not_exists h]

theorem fsRemove_fsWrite_fresh {fs : FileSys} {n c : Str} (h : fsExists fs n = false) :
    fsRemove (fsWrite fs n c) n = fs := by
  rw [fsWrite_fresh h]
  unfold fsRemove
  rw [List.filter_cons]
  have hc : (!((n, c).1 == n)) = false := by simp
  rw [hc, if_neg (by simp)]
  exact fsRemove_of_not_exists h

/-! ## Master lemmas: `download_mp3` in terms of its planned write -/

/-- When the downloader reaches the write step, its result is determined
by the planned filename and body: write, then remove again when the body
is undersized. -/
theorem download_mp3_plan {env : Env} {u n b : Str} (ref : Option Str) (fs : FileSys)
    (h : plannedWrite env u = some (n, b)) :
    download_mp3 env u ref fs =
      if b.length < 1000 then
        (false, fsRemove (fsWrite fs (resolveName fs n) b) (resolveName fs n))
      else (true, fsWrite fs (resolveName fs n) b) := by
  cases hf : env.fetch u with
  | none => simp [plannedWrite, hf] at h
  | some r =>
    by_cases hok : okStatus r = true
    · by_cases hs : htmlSniff r = true
      · cases ha : r.doc.audios.head? with
        | none => simp [plannedWrite, hf, hok, hs, ha] at h
        | some tag =>
          cases hsrc : tag.src with
          | none => simp [plannedWrite, hf, hok, hs, ha, hsrc] at h
          | some src =>
            cases hf2 : env.fetch (urljoin u src) with
            | none => simp [plannedWrite, hf, hok, hs, ha, hsrc, hf2] at h
            | some r2 =>
              by_cases hok2 : okStatus r2 = true
              · simp only [plannedWrite, hf, hok, hs, ha, hsrc, hf2, hok2, if_true,
                  Option.some.injEq, Prod.mk.injEq] at h
                obtain ⟨h1, h2⟩ := h
                subst h1; subst h2
                simp [download_mp3, hf, hok, hs, ha, hsrc, hf2, hok2]
              · rw [Bool.not_eq_true] at hok2
                simp [plannedWrite, hf, hok, hs, ha, hsrc, hf2, hok2] at h
      · rw [Bool.not_eq_true] at hs
        simp only [plannedWrite, hf, hok, hs, if_true, Bool.false_eq_true, if_false,
          Option.some.injEq, Prod.mk.injEq] at h
        obtain ⟨h1, h2⟩ := h
        subst h1; subst h2
        simp [download_mp3, hf, hok, hs]
    · rw [Bool.not_eq_true] at hok
      simp [plannedWrite, hf, hok] at h

/-- When no write is planned (exception, bad status, wrapper without a
playable source), the downloader reports failure and leaves the directory
untouched. -/
theorem download_mp3_noplan {env : Env} {u : Str} (ref : Option Str) (fs : FileSys)
    (h : plannedWrite env u = none) :
    download_mp3 env u ref fs = (false, fs) := by
  cases hf : env.fetch u with
  | none => simp [download_mp3, hf]
  | some r =>
    by_cases hok : okStatus r = true
    · by_cases hs : htmlSniff r = true
      · cases ha : r.doc.audios.head? with
        | none => simp [download_mp3, hf, hok, hs, ha]
        | some tag =>
          cases hsrc : tag.src with
          | none => simp [download_mp3, hf, hok, hs, ha, hsrc]
          | some src =>
            cases hf2 : env.fetch (urljoin u src) with
            | none => simp [download_mp3, hf, hok, hs, ha, hsrc, hf2]
            | some r2 =>
              by_cases hok2 : okStatus r2 = true
              · simp [plannedWrite, hf, hok, hs, ha, hsrc, hf2, hok2] at h
              · rw [Bool.not_eq_true] at hok2
                simp [download_mp3, hf, hok, hs, ha, hsrc, hf2, hok2]
      · rw [Bool.not_eq_true] at hs
        simp [plannedWrite, hf, hok, hs] at h
    · rw [Bool.not_eq_true] at hok
      simp [download_mp3, hf, hok]

/-- A successful download writes the body under the collision-resolved
fresh name and changes nothing else. -/
theorem download_mp3_success {env : Env} {u n b : Str} (ref : Option Str) (fs : FileSys)
    (h : plannedWrite env u = some (n, b)) (hb : 1000 ≤ b.length) :
    download_mp3 env u ref fs = (true, (resolveName fs n, b) :: fs) := by
  rw [download_mp3_plan ref fs h, if_neg (by omega),
    fsWrite_fresh (resolveName_fresh fs n)]

/-- An undersized download reports failure and restores the directory
exactly. -/
theorem download_mp3_undersized {env : Env} {u n b : Str} (ref : Option Str) (fs : FileSys)
    (h : plannedWrite env u = some (n, b)) (hb : b.length < 1000) :
    download_mp3 env u ref fs = (false, fs) := by
  rw [download_mp3_plan ref fs h, if_pos hb,
    fsRemove_fsWrite_fresh (resolveName_fresh fs n)]

theorem resolveName_not_exists {fs : FileSys} {n : Str} (h : fsExists fs n = false) :
    resolveName fs n = n := by
  unfold resolveName
  rw [if_neg (by simp [h])]

theorem urljoin_absolute {base url : Str} (h : isAbsoluteUrl url = true) :
    urljoin base url = url := by
  have hne : url ≠ [] := by
    intro h0
    subst h0
    exact absurd h (by decide)
  unfold urljoin
  rw [if_neg hne, if_pos h]

/-! ## Claims C1, C5, C10: the Resolver/Downloader -/

/-- C1 (confirmed): when a candidate URL fetches as an HTML wrapper whose
only media reference is an `<audio>` element whose `src` is an absolute
stream URL, `download_mp3` fetches the stream and saves its content under
the filename sanitized from the *stream* URL's path (the wrapper URL's
path plays no part in the name). -/
theorem C1_wrapper_resolution {env : Env} {u src : Str} {r r2 : HttpResponse} {tag : AudioTag}
    (ref : Option Str) (fs : FileSys)
    (hf : env.fetch u = some r)
    (hok : okStatus r = true)
    (hs : htmlSniff r = true)
    (ha : r.doc.audios = [tag])
    (hsrc : tag.src = some src)
    (habs : isAbsoluteUrl src = true)
    (hf2 : env.fetch src = some r2)
    (hok2 : okStatus r2 = true)
    (hb : 1000 ≤ r2.body.length)
    (hfree : fsExists fs (sanitize_filename (osBasename (urlparse src).path)) = false) :
    download_mp3 env u ref fs =
      (true, (sanitize_filename (osBasename (urlparse src).path), r2.body) :: fs) := by
  have hjoin : urljoin u src = src := urljoin_absolute habs
  have ha' : r.doc.audios.head? = some tag := by rw [ha]; rfl
  have hplan : plannedWrite env u =
      some (sanitize_filename (osBasename (urlparse src).path), r2.body) := by
    simp [plannedWrite, hf, hok, hs, ha', hsrc, hjoin, hf2, hok2]
  rw [download_mp3_success ref fs hplan hb, resolveName_not_exists hfree]

/-- C1, concrete environment: a wrapper page and the stream it points to. -/
def streamUrlC1 : Str := "https://cdn.example/stream/track1.mp3".data

def tagC1 : AudioTag := { src := some streamUrlC1, sources := [] }

def wrapRespC1 : HttpResponse :=
  { status := 200, contentType := "text/html; charset=utf-8".data, body := [],
    doc := { audios := [tagC1], anchors := [] } }

def streamRespC1 : HttpResponse :=
  { status := 200, contentType := "audio/mpeg".data, body := List.replicate 1000 'x',
    doc := { audios := [], anchors := [] } }

def envC1 : Env :=
  { fetch := fun u =>
      if u = "https://site.example/wrap.mp3".data then some wrapRespC1
      else if u = streamUrlC1 then some streamRespC1
      else none }

set_option maxRecDepth 8000 in
/-- C1, witness: the hypotheses hold in the concrete environment and the
stream content lands under `track1.mp3`, the name derived from the stream
URL's path (the wrapper path would have given `wrap.mp3`). -/
theorem C1_witness :
    (envC1.fetch ("https://site.example/wrap.mp3".data) = some wrapRespC1 ∧
     okStatus wrapRespC1 = true ∧ htmlSniff wrapRespC1 = true ∧
     wrapRespC1.doc.audios = [tagC1] ∧ tagC1.src = some streamUrlC1 ∧
     isAbsoluteUrl streamUrlC1 = true ∧
     envC1.fetch streamUrlC1 = some streamRespC1 ∧
     okStatus streamRespC1 = true ∧ 1000 ≤ streamRespC1.body.length ∧
     sanitize_filename (osBasename (urlparse streamUrlC1).path) = "track1.mp3".data) ∧
    download_mp3 envC1 ("https://site.example/wrap.mp3".data) none [] =
      (true, [(sanitize_filename (osBasename (urlparse streamUrlC1).path),
               streamRespC1.body)]) :=
  ⟨⟨by decide, by decide, by decide, by decide, by decide, by decide, by decide,
    by decide, by decide, by decide⟩,
   @C1_wrapper_resolution envC1 ("https://site.example/wrap.mp3".data) streamUrlC1
     wrapRespC1 streamRespC1 tagC1 none [] (by decide) (by decide) (by decide)
     (by decide) (by decide) (by decide) (by decide) (by decide) (by decide)
     (by decide)⟩

/-- C5 (confirmed): whenever the downloader's fetch pipeline succeeds but
the body it writes is below the 1000-byte threshold, `download_mp3`
reports failure and the output directory afterwards is exactly what it
was before — no file for that candidate remains. -/
theorem C5_undersized_rejection {env : Env} {u n b : Str} (ref : Option Str) (fs : FileSys)
    (h : plannedWrite env u = some (n, b)) (hb : b.length < 1000) :
    download_mp3 env u ref fs = (false, fs) :=
  download_mp3_undersized ref fs h hb

/-- C5, concrete environment: a direct MP3 whose body is 5 bytes. -/
def envC5 : Env :=
  { fetch := fun u =>
      if u = "https://h.example/a/t.mp3".data then
        some { status := 200, contentType := "audio/mpeg".data, body := "tiny!".data,
               doc := { audios := [], anchors := [] } }
      else none }

/-- C5, witness: the undersized fetch in the concrete environment fails
and leaves a non-empty starting directory untouched. -/
theorem C5_witness :
    (plannedWrite envC5 ("https://h.example/a/t.mp3".data) =
      some ("t.mp3".data, "tiny!".data) ∧ ("tiny!".data : Str).length < 1000) ∧
    download_mp3 envC5 ("https://h.example/a/t.mp3".data) none
        [(("other.mp3".data : Str), ("zzzz".data : Str))] =
      (false, [(("other.mp3".data : Str), ("zzzz".data : Str))]) :=
  ⟨⟨by decide, by decide⟩,
   @C5_undersized_rejection envC5 ("https://h.example/a/t.mp3".data) ("t.mp3".data)
     ("tiny!".data) none [(("other.mp3".data : Str), ("zzzz".data : Str))]
     (by decide) (by decide)⟩

/-- C10 (corrected): when the initial response has a status in 400–599
(exactly the statuses `raise_for_status` raises for — not every non-2xx),
or the resource sniffs as an HTML wrapper with no audio element or no
`src` attribute on it, `download_mp3` returns failure without touching
the output directory. -/
theorem C10_prewrite_failure {env : Env} {u : Str} {r : HttpResponse}
    (ref : Option Str) (fs : FileSys)
    (hf : env.fetch u = some r)
    (hcase : (400 ≤ r.status ∧ r.status < 600) ∨
      (okStatus r = true ∧ htmlSniff r = true ∧
        Option.bind r.doc.audios.head? AudioTag.src = none)) :
    download_mp3 env u ref fs = (false, fs) := by
  refine download_mp3_noplan ref fs ?_
  rcases hcase with ⟨hstat1, hstat2⟩ | ⟨hok, hs, hbind⟩
  · have hok : okStatus r = false := by
      unfold okStatus
      simp only [decide_eq_false_iff_not]
      omega
    simp [plannedWrite, hf, hok]
  · cases ha : r.doc.audios.head? with
    | none => simp [plannedWrite, hf, hok, hs, ha]
    | some tag =>
      rw [ha] at hbind
      have hsrc : tag.src = none := hbind
      simp [plannedWrite, hf, hok, hs, ha, hsrc]

/-- C10, concrete environment for the counterexample: a (non-redirected)
response with the non-2xx status 300 and a large audio body. -/
def envC10 : Env :=
  { fetch := fun u =>
      if u = "https://h.example/t.mp3".data then
        some { status := 300, contentType := "audio/mpeg".data,
               body := List.replicate 1000 'x',
               doc := { audios := [], anchors := [] } }
      else none }

set_option maxRecDepth 8000 in
/-- C10, counterexample: a status-300 response is non-2xx, yet
`raise_for_status` does not raise below 400, so the download succeeds and
a file is created — contradicting "non-2xx status → failure without
creating any file". -/
theorem C10_counterexample :
    (envC10.fetch ("https://h.example/t.mp3".data)).map HttpResponse.status = some 300 ∧
    download_mp3 envC10 ("https://h.example/t.mp3".data) none [] =
      (true, [(("t.mp3".data : Str), List.replicate 1000 'x')]) := by
  constructor
  · decide
  · decide

/-- C10, concrete environment for the witness: a plain 404. -/
def respC10w : HttpResponse :=
  { status := 404, contentType := "text/html".data, body := [],
    doc := { audios := [], anchors := [] } }

def envC10w : Env :=
  { fetch := fun u =>
      if u = "https://h.example/gone.mp3".data then some respC10w else none }

/-- C10, witness: the amended pre-write failure at a concrete 404. -/
theorem C10_witness :
    (envC10w.fetch ("https://h.example/gone.mp3".data) = some respC10w ∧
     400 ≤ respC10w.status ∧ respC10w.status < 600) ∧
    download_mp3 envC10w ("https://h.example/gone.mp3".data) none [] = (false, []) :=
  ⟨⟨by decide, by decide, by decide⟩,
   @C10_prewrite_failure envC10w ("https://h.example/gone.mp3".data) respC10w
     none [] (by decide) (Or.inl (by decide))⟩

/-! ## Claim C7: collision handling never overwrites -/

/-- A run of downloads over a list of candidate URLs, threading the
directory (the fold the orchestrator's loops perform on `fs`). -/
def downloadAll (env : Env) (ref : Option Str) (us : List Str) (fs : FileSys) : FileSys :=
  us.foldl (fun acc u => (download_mp3 env u ref acc).2) fs

/-- C7 (confirmed): over any sequence of successfully-downloading
candidates — in particular N candidates resolving to the same base
filename — every download picks a fresh suffixed name, so the directory
gains exactly one distinct file per candidate, the filenames stay
pairwise distinct, and no existing file is overwritten or lost. -/
theorem C7_collision_no_overwrite (env : Env) (ref : Option Str) :
    ∀ (us : List Str) (fs : FileSys),
      (fsNames fs).Nodup →
      (∀ u ∈ us, ∃ n b, plannedWrite env u = some (n, b) ∧ 1000 ≤ b.length) →
      (fsNames (downloadAll env ref us fs)).Nodup ∧
      (downloadAll env ref us fs).length = fs.length + us.length ∧
      ∀ e ∈ fs, e ∈ downloadAll env ref us fs := by
  intro us
  induction us with
  | nil =>
    intro fs hnd _
    exact ⟨hnd, by simp [downloadAll], fun e he => by simpa [downloadAll] using he⟩
  | cons u us ih =>
    intro fs hnd hok
    obtain ⟨n, b, hp, hb⟩ := hok u (by simp)
    have hstep : download_mp3 env u ref fs = (true, (resolveName fs n, b) :: fs) :=
      download_mp3_success ref fs hp hb
    have hfresh : resolveName fs n ∉ fsNames fs :=
      not_mem_of_fsExists_false (resolveName_fresh fs n)
    have hca : downloadAll env ref (u :: us) fs =
        downloadAll env ref us ((resolveName fs n, b) :: fs) := by
      simp [downloadAll, hstep]
    have hnd2 : (fsNames ((resolveName fs n, b) :: fs)).Nodup := by
      unfold fsNames
      rw [List.map_cons]
      exact List.nodup_cons.2 ⟨hfresh, hnd⟩
    obtain ⟨ih1, ih2, ih3⟩ :=
      ih ((resolveName fs n, b) :: fs) hnd2 (fun v hv => hok v (by simp [hv]))
    refine ⟨hca ▸ ih1, ?_, ?_⟩
    · rw [hca, ih2]
      simp only [List.length_cons]
      omega
    · intro e he
      rw [hca]
      exact ih3 e (by simp [he])

/-- C7, concrete environment: two direct MP3s on different paths sharing
the base filename `t.mp3`. -/
def envC7 : Env :=
  { fetch := fun u =>
      if u = "https://h.example/a/t.mp3".data then
        some { status := 200, contentType := "audio/mpeg".data,
               body := List.replicate 1000 'x', doc := { audios := [], anchors := [] } }
      else if u = "https://h.example/b/t.mp3".data then
        some { status := 200, contentType := "audio/mpeg".data,
               body := List.replicate 1000 'y', doc := { audios := [], anchors := [] } }
      else none }

set_option maxRecDepth 8000 in
set_option maxHeartbeats 1000000 in
/-- C7, witness: the two same-base candidates yield two distinct files
(`t.mp3` and `t_1.mp3`) in an initially empty directory. -/
theorem C7_witness :
    (([] : FileSys).length = 0 ∧
     fsNames (downloadAll envC7 none
       ["https://h.example/a/t.mp3".data, "https://h.example/b/t.mp3".data] []) =
       ["t_1.mp3".data, "t.mp3".data]) ∧
    ((fsNames (downloadAll envC7 none
        ["https://h.example/a/t.mp3".data, "https://h.example/b/t.mp3".data] [])).Nodup ∧
     (downloadAll envC7 none
        ["https://h.example/a/t.mp3".data, "https://h.example/b/t.mp3".data] []).length =
       ([] : FileSys).length + 2 ∧
     ∀ e ∈ ([] : FileSys), e ∈ downloadAll envC7 none
        ["https://h.example/a/t.mp3".data, "https://h.example/b/t.mp3".data] []) :=
  ⟨⟨rfl, by decide⟩,
   C7_collision_no_overwrite envC7 none
     ["https://h.example/a/t.mp3".data, "https://h.example/b/t.mp3".data] []
     (by exact List.nodup_nil)
     (fun u hu => by
       rcases List.mem_cons.1 hu with rfl | hu2
       · exact ⟨"t.mp3".data, List.replicate 1000 'x', by decide, by decide⟩
       · rcases List.mem_cons.1 hu2 with rfl | hu3
         · exact ⟨"t.mp3".data, List.replicate 1000 'y', by decide, by decide⟩
         · exact absurd hu3 (by simp))⟩

/-! ## Facts about `list(set(...))` and the extractor folds -/

theorem pySetListAux_spec : ∀ (xs seen : List Str),
    (pySetListAux seen xs).Nodup ∧ ∀ x ∈ pySetListAux seen xs, x ∈ xs ∧ x ∉ seen := by
  intro xs
  induction xs with
  | nil => intro seen; exact ⟨List.nodup_nil, by simp [pySetListAux]⟩
  | cons x xs ih =>
    intro seen
    by_cases hx : x ∈ seen
    · rw [show pySetListAux seen (x :: xs) = pySetListAux seen xs from by
        simp [pySetListAux, hx]]
      obtain ⟨h1, h2⟩ := ih seen
      exact ⟨h1, fun y hy => ⟨List.mem_cons_of_mem _ (h2 y hy).1, (h2 y hy).2⟩⟩
    · rw [show pySetListAux seen (x :: xs) = x :: pySetListAux (x :: seen) xs from by
        simp [pySetListAux, hx]]
      obtain ⟨h1, h2⟩ := ih (x :: seen)
      constructor
      · refine List.nodup_cons.2 ⟨?_, h1⟩
        intro hmem
        exact (h2 x hmem).2 (by simp)
      · intro y hy
        rcases List.mem_cons.1 hy with rfl | hy2
        · exact ⟨by simp, hx⟩
        · exact ⟨List.mem_cons_of_mem _ (h2 y hy2).1,
            fun hs => (h2 y hy2).2 (by simp [hs])⟩

theorem pySetList_nodup (xs : List Str) : (pySetList xs).Nodup := (pySetListAux_spec xs []).1

theorem mem_pySetList {x : Str} {xs : List Str} (h : x ∈ pySetList xs) : x ∈ xs :=
  ((pySetListAux_spec xs []).2 x h).1

theorem mem_foldr_append {α β : Type} (g : α → List β) :
    ∀ (l : List α) {x : β}, x ∈ l.foldr (fun a acc => g a ++ acc) [] → ∃ a ∈ l, x ∈ g a := by
  intro l
  induction l with
  | nil => intro x h; simp at h
  | cons a l ih =>
    intro x h
    rw [List.foldr_cons] at h
    rcases List.mem_append.1 h with h1 | h1
    · exact ⟨a, by simp, h1⟩
    · obtain ⟨b, hb, hx⟩ := ih h1
      exact ⟨b, by simp [hb], hx⟩

/-! ## Claim C6: domain scoping of the Link Discoverer -/

/-- C6 (corrected): every URL returned by `get_linked_pages` has the same
netloc (host) as the base domain — but only the netloc is compared; the
scheme is not, see the counterexample. -/
theorem C6_same_host (env : Env) (page base : Str) :
    ∀ u ∈ get_linked_pages env page base,
      (urlparse u).netloc = (urlparse base).netloc := by
  intro u hu
  have hd : u ∈ discoveredLinks env page base := mem_pySetList hu
  cases hf : env.fetch page with
  | none => simp [discoveredLinks, hf] at hd
  | some r =>
    by_cases hok : okStatus r = true
    · simp only [discoveredLinks, hf, hok, if_true] at hd
      obtain ⟨href, _, hx⟩ := mem_foldr_append _ _ hd
      by_cases hc : (urlparse (urljoin page href)).netloc = (urlparse base).netloc
      · rw [if_pos hc] at hx
        rw [List.mem_singleton.1 hx]
        exact hc
      · rw [if_neg hc] at hx
        simp at hx
    · rw [Bool.not_eq_true] at hok
      simp [discoveredLinks, hf, hok] at hd

/-- C6, concrete environment: an `https` seed whose page carries a link
to the same host over plain `http`. -/
def pageC6 : HttpResponse :=
  { status := 200, contentType := "text/html".data, body := [],
    doc := { audios := [], anchors := ["http://h/x".data] } }

def envC6 : Env :=
  { fetch := fun u => if u = "https://h/page".data then some pageC6 else none }

/-- C6, counterexample: the same-host `http` link is returned although
its scheme differs from the base domain's — the code compares netloc
only, not scheme+host. -/
theorem C6_counterexample :
    ("http://h/x".data ∈ get_linked_pages envC6 ("https://h/page".data) ("https://h".data)) ∧
    (urlparse ("http://h/x".data)).scheme ≠ (urlparse ("https://h".data)).scheme := by
  constructor
  · decide
  · decide

/-- C6, witness: the amended host-only property at the concrete link. -/
theorem C6_witness :
    ("http://h/x".data ∈ get_linked_pages envC6 ("https://h/page".data) ("https://h".data)) ∧
    (urlparse ("http://h/x".data)).netloc = (urlparse ("https://h".data)).netloc :=
  ⟨by decide, C6_same_host envC6 ("https://h/page".data) ("https://h".data)
    ("http://h/x".data) (by decide)⟩

/-! ## Claim C9: per-page failures yield empty results -/

/-- C9 (confirmed): when fetching a page raises or returns a 4xx/5xx
status, both the Media-URL Extractor and the Link Discoverer return the
empty list — the `except` branches of both functions — so a per-page
failure never aborts the run (in the embedding both functions are total
and the orchestrator consumes their value). -/
theorem C9_error_empty (env : Env) (page bd : Str) (h : pageFetchOk env page = false) :
    find_real_mp3_on_page env page bd = [] ∧ get_linked_pages env page bd = [] := by
  cases hf : env.fetch page with
  | none =>
    constructor
    · simp [find_real_mp3_on_page, hf]
    · simp [get_linked_pages, discoveredLinks, hf, pySetList, pySetListAux]
  | some r =>
    have hok : okStatus r = false := by simpa [pageFetchOk, hf] using h
    constructor
    · simp [find_real_mp3_on_page, hf, hok]
    · simp [get_linked_pages, discoveredLinks, hf, hok, pySetList, pySetListAux]

/-- C9, concrete environment: every fetch raises. -/
def envC9 : Env := { fetch := fun _ => none }

/-- C9, witness: the failing page yields empty extraction and discovery. -/
theorem C9_witness :
    pageFetchOk envC9 ("https://h.example/dead".data) = false ∧
    find_real_mp3_on_page envC9 ("https://h.example/dead".data)
      ("https://h.example".data) = [] ∧
    get_linked_pages envC9 ("https://h.example/dead".data)
      ("https://h.example".data) = [] :=
  ⟨by decide,
   (C9_error_empty envC9 _ _ (by decide)).1,
   (C9_error_empty envC9 _ _ (by decide)).2⟩

/-! ## Claim C2: each candidate URL is downloaded at most once -/

/-- The orchestrator invariant: the download trace has no duplicates and
every downloaded URL has been inserted into the seen set. -/
def crawlInv (st : RunState) : Prop :=
  st.downloads.Nodup ∧ ∀ u ∈ st.downloads, u ∈ st.seen

theorem foldl_inv {σ α : Type} (f : σ → α → σ) (P : σ → Prop)
    (hstep : ∀ s a, P s → P (f s a)) :
    ∀ (l : List α) (s : σ), P s → P (l.foldl f s) := by
  intro l
  induction l with
  | nil => intro s hs; exact hs
  | cons a l ih => intro s hs; exact ih (f s a) (hstep s a hs)

theorem processCandidate_inv (env : Env) (ref : Option Str) (st : RunState) (mp3 : Str)
    (h : crawlInv st) : crawlInv (processCandidate env ref st mp3) := by
  unfold processCandidate
  by_cases hm : mp3 ∈ st.seen
  · rw [if_pos hm]; exact h
  · rw [if_neg hm]
    refine ⟨?_, ?_⟩
    · exact List.nodup_cons.2 ⟨fun hd => hm (h.2 mp3 hd), h.1⟩
    · intro u hu
      rcases List.mem_cons.1 hu with rfl | hu2
      · exact List.mem_cons_self _ _
      · exact List.mem_cons_of_mem _ (h.2 u hu2)

/-- C2 (confirmed): across a full run — seed-page candidates and the
candidates of every linked page, duplicates included — `download_mp3` is
invoked at most once per unique URL string: the trace of downloader
invocations has no duplicates, because membership in the seen set is
checked before each download and the URL is inserted before invoking. -/
theorem C2_downloads_nodup (env : Env) (start_url : Str) :
    (runCrawl env start_url).downloads.Nodup := by
  have h : crawlInv (runCrawl env start_url) := by
    unfold runCrawl
    refine foldl_inv _ crawlInv ?_ _ _ (foldl_inv _ crawlInv ?_ _ _ ?_)
    · intro st page hst
      exact foldl_inv _ crawlInv
        (fun st2 m hst2 => processCandidate_inv env _ st2 m hst2) _ st hst
    · intro st m hst
      exact processCandidate_inv env _ st m hst
    · exact ⟨List.nodup_nil, by simp⟩
  exact h.1

/-- C2, concrete environment: the candidate `/a.mp3` is discovered on the
seed page and again on a linked page. -/
def envC2 : Env :=
  { fetch := fun u =>
      if u = "https://h.example".data then
        some { status := 200, contentType := "text/html".data, body := [],
               doc := { audios := [],
                        anchors := ["/a.mp3".data, "/page1".data] } }
      else if u = "https://h.example/page1".data then
        some { status := 200, contentType := "text/html".data, body := [],
               doc := { audios := [], anchors := ["/a.mp3".data] } }
      else none }

set_option maxRecDepth 8000 in
set_option maxHeartbeats 1000000 in
/-- C2, witness: although the same candidate is produced twice (seed page
and linked page), the downloader is invoked exactly once for it. -/
theorem C2_witness :
    (runCrawl envC2 ("https://h.example".data)).downloads =
      ["https://h.example/a.mp3".data] ∧
    (runCrawl envC2 ("https://h.example".data)).downloads.Nodup :=
  ⟨by decide, C2_downloads_nodup envC2 ("https://h.example".data)⟩

/-! ## Claim C4: the 100-page cap of `LinkedExtract` -/

/-- C4 (corrected): the `LinkedExtract` stage processes exactly
`min 100 D` pages, where `D` is the number of *distinct* same-domain
links, each processed page is a discovered link and none is processed
twice.  They are not "the first 100 in discovery order": `list(set(...))`
first removes duplicates and enumerates the set in an unspecified,
hash-dependent order, and the cap is applied to that list. -/
theorem C4_cap_amended (env : Env) (start_url : Str) :
    (linkedExtractPages env start_url).length =
      min 100 (get_linked_pages env (normalizeSeed start_url)
        (baseDomain (normalizeSeed start_url))).length ∧
    (linkedExtractPages env start_url).Nodup ∧
    ∀ p ∈ linkedExtractPages env start_url,
      p ∈ discoveredLinks env (normalizeSeed start_url)
        (baseDomain (normalizeSeed start_url)) := by
  refine ⟨?_, ?_, ?_⟩
  · unfold linkedExtractPages
    exact List.length_take _ _
  · unfold linkedExtractPages
    exact List.Nodup.sublist (List.take_sublist _ _) (pySetList_nodup _)
  · intro p hp
    unfold linkedExtractPages at hp
    exact mem_pySetList (List.take_subset _ _ hp)

/-- C4, concrete environment for the counterexample: 102 same-domain
anchors (`/p1` twice, then `/p2` … `/p101`), i.e. more than 100 links
with a duplicate among the first 100. -/
def seedC4 : Str := "https://h.example/seed".data

def anchorsC4 : List Str :=
  ("/p1".data) :: (List.range 101).map (fun i => "/p".data ++ natToStr (i + 1))

def envC4 : Env :=
  { fetch := fun u =>
      if u = seedC4 then
        some { status := 200, contentType := "text/html".data, body := [],
               doc := { audios := [], anchors := anchorsC4 } }
      else none }

set_option maxRecDepth 8000 in
set_option maxHeartbeats 4000000 in
/-- C4, counterexample: with more than 100 same-domain links discovered,
the processed pages differ from the first 100 links in discovery order —
the duplicated link occupies two of the first 100 discovery slots but is
processed once, so a 101st-slot link is processed instead.  (The 100
processed pages are pairwise distinct while the first 100 discovered
links are not, so this holds under any enumeration order of the set.) -/
theorem C4_counterexample :
    100 < (discoveredLinks envC4 (normalizeSeed seedC4)
      (baseDomain (normalizeSeed seedC4))).length ∧
    linkedExtractPages envC4 seedC4 ≠
      (discoveredLinks envC4 (normalizeSeed seedC4)
        (baseDomain (normalizeSeed seedC4))).take 100 := by
  constructor
  · decide
  · decide

/-- C4, concrete environment for the witness: three anchors, one
duplicated. -/
def seedC4w : Str := "https://h.example/seed".data

def envC4w : Env :=
  { fetch := fun u =>
      if u = seedC4w then
        some { status := 200, contentType := "text/html".data, body := [],
               doc := { audios := [],
                        anchors := ["/a".data, "/b".data, "/a".data] } }
      else none }

/-- C4, witness: the amended cap property at a small concrete page —
two distinct links, both processed, each a discovered link. -/
theorem C4_witness :
    linkedExtractPages envC4w seedC4w =
      ["https://h.example/a".data, "https://h.example/b".data] ∧
    ((linkedExtractPages envC4w seedC4w).length =
      min 100 (get_linked_pages envC4w (normalizeSeed seedC4w)
        (baseDomain (normalizeSeed seedC4w))).length ∧
     (linkedExtractPages envC4w seedC4w).Nodup ∧
     ∀ p ∈ linkedExtractPages envC4w seedC4w,
       p ∈ discoveredLinks envC4w (normalizeSeed seedC4w)
         (baseDomain (normalizeSeed seedC4w))) :=
  ⟨by decide, C4_cap_amended envC4w seedC4w⟩

end Thec
